import Mathlib

/-!
Shallow embedding of the audioKut waveform / cut-point editor core:
the playback clock controller of `src/components/AudioPlayer.tsx` and the
waveform rendering and cut-point interaction engine of the Waveform
component.  Times, hardware-clock readings, playback rates and sample
amplitudes are modelled as rationals; the machine floats of the source are
exact on every input considered here.  Stateful component code is modelled
by explicit state passing on `PlayerState`; each operation takes the
hardware clock reading `now` (`audioContext.currentTime` at the moment of
the call) and the track duration `dur` as explicit inputs.
-/

namespace AudioKut

/-- A cut point marker: an opaque id and a time in seconds (the `CutPoint`
record consumed by the Waveform component). -/
structure CutPoint where
  id : String
  time : ℚ
  deriving DecidableEq

/-- The mutable playback bookkeeping of the AudioPlayer component:
`isPlaying` models `isPlayingRef` together with the `isPlaying` state (the
source keeps them equal at every update site); `pauseTime` is
`pauseTimeRef.current`, the stored position; `startTime` is
`startTimeRef.current`, the hardware-clock reference timestamp recorded by
the last `play`; `currentTime` is the displayed position state; `rate` is
`playbackRateRef.current`; `intentionalStop` is `intentionalStopRef.current`;
`hasSource` says `sourceRef.current` is non-null (an audio context then
exists as well, since `play` creates it before the node); `sourceStopped`
records whether the controller has called `stop()` on the current output
node.  The `timeInput` text field is orthogonal to playback and not
modelled. -/
structure PlayerState where
  isPlaying : Bool
  pauseTime : ℚ
  startTime : ℚ
  currentTime : ℚ
  rate : ℚ
  intentionalStop : Bool
  hasSource : Bool
  sourceStopped : Bool
  deriving DecidableEq

/-- The component state on mount. -/
def initState : PlayerState :=
  { isPlaying := false, pauseTime := 0, startTime := 0, currentTime := 0,
    rate := 1, intentionalStop := false, hasSource := false,
    sourceStopped := false }

/-- `play()` of AudioPlayer.tsx with the audio buffer loaded (the
`!audioBuffer` early return is outside the model's scope): any in-flight
node is stopped first and tagged as an intentional stop; a fresh node is
started at offset `pauseTimeRef.current` and the hardware clock reading is
recorded as the reference timestamp. -/
def play (now : ℚ) (s : PlayerState) : PlayerState :=
  let s := if s.hasSource then
      { s with intentionalStop := true, sourceStopped := true }
    else s
  { s with startTime := now, hasSource := true, sourceStopped := false,
           isPlaying := true }

/-- `pause()` of AudioPlayer.tsx: no-op without a source node; otherwise
add the scaled clock delta to the stored position
(`pauseTimeRef.current += elapsed`), clamp it to the duration, publish it,
stop the node as an intentional stop and leave Playing. -/
def pause (now dur : ℚ) (s : PlayerState) : PlayerState :=
  if s.hasSource then
    let position := min (s.pauseTime + (now - s.startTime) * s.rate) dur
    { s with pauseTime := position, currentTime := position,
             intentionalStop := true, sourceStopped := true,
             isPlaying := false }
  else s

/-- `updateTime()` of AudioPlayer.tsx at clock reading `now`: while
playing, recompute the position from the hardware clock delta, clamp it to
the duration and publish it; when it reaches `duration - 0.01` reset the
stored and displayed position to 0 and leave Playing (no `stop()` call is
issued on this path). -/
def updateTime (now dur : ℚ) (s : PlayerState) : PlayerState :=
  if s.isPlaying then
    let newTime := min (s.pauseTime + (now - s.startTime) * s.rate) dur
    if dur - 1 / 100 ≤ newTime then
      { s with currentTime := 0, isPlaying := false, pauseTime := 0 }
    else
      { s with currentTime := newTime }
  else s

/-- `seekTo(newTime)` of AudioPlayer.tsx: clamp the target to
`[0, duration]`, store and publish it, and while playing restart output
via pause-then-play. -/
def seekTo (now dur x : ℚ) (s : PlayerState) : PlayerState :=
  let t := max 0 (min dur x)
  let s1 := { s with pauseTime := t, currentTime := t }
  if s.isPlaying then play now (pause now dur s1) else s1

/-- `skip(seconds)` of AudioPlayer.tsx: clamp
`pauseTimeRef.current + seconds` to `[0, duration]`, store and publish it,
and while playing restart output via pause-then-play. -/
def skip (now dur d : ℚ) (s : PlayerState) : PlayerState :=
  let newTime := max 0 (min dur (s.pauseTime + d))
  let s1 := { s with pauseTime := newTime, currentTime := newTime }
  if s.isPlaying then play now (pause now dur s1) else s1

/-- The `onended` completion handler installed on each output node by
`play`: an intentional stop only consumes the one-shot flag; otherwise the
completion is a natural end and resets position 0 / not playing. -/
def handleEnded (s : PlayerState) : PlayerState :=
  if s.intentionalStop then { s with intentionalStop := false }
  else { s with pauseTime := 0, currentTime := 0, isPlaying := false }

/-! ### Time Codec (`parseTimeInput` of AudioPlayer.tsx)

The JS string builtins it calls (`trim`, `split(":")`,
`replace(",", ".")`, `parseFloat`, `parseInt`) are modelled character by
character below, restricted to the grammar they are applied to here
(decimal notation; `parseFloat`'s exponent and `Infinity` forms never
arise from a decimal time field and are out of the modelled grammar). -/

/-- Whitespace for the purposes of `trim` / numeric parsing. -/
def isSpaceChar (c : Char) : Bool :=
  c == ' ' || c == '\t' || c == '\n' || c == '\r'

/-- Model of `String.prototype.trim`: strip leading and trailing
whitespace. -/
def jsTrim (cs : List Char) : List Char :=
  ((cs.dropWhile isSpaceChar).reverse.dropWhile isSpaceChar).reverse

/-- Model of `String.prototype.split(":")`: split at every colon, keeping
empty pieces (`"".split(":")` is `[""]`). -/
def splitColon : List Char → List (List Char)
  | [] => [[]]
  | c :: cs =>
    if c = ':' then [] :: splitColon cs
    else
      match splitColon cs with
      | [] => [[c]]
      | p :: ps => (c :: p) :: ps

/-- Model of `.replace(",", ".")`: JS `replace` with a string pattern
replaces only the first occurrence. -/
def replaceFirstComma : List Char → List Char
  | [] => []
  | c :: cs => if c = ',' then '.' :: cs else c :: replaceFirstComma cs

/-- Numeric value of a decimal digit character. -/
def digitVal (c : Char) : ℕ := c.toNat - '0'.toNat

/-- Value of a string of decimal digits. -/
def digitsToNat (ds : List Char) : ℕ :=
  ds.foldl (fun acc c => 10 * acc + digitVal c) 0

/-- Model of JS `parseFloat` on decimal notation: skip leading
whitespace, read an optional sign, then the longest prefix of the form
`digits`, `digits.digits`, `.digits` or `digits.`; trailing garbage is
ignored; no digit at all means NaN (`none`). -/
def jsParseFloatChars (cs0 : List Char) : Option ℚ :=
  let cs := cs0.dropWhile isSpaceChar
  let signed : ℚ × List Char :=
    match cs with
    | '-' :: r => (-1, r)
    | '+' :: r => (1, r)
    | _ => (1, cs)
  let sign := signed.1
  let cs1 := signed.2
  let intPart := cs1.takeWhile Char.isDigit
  let rest := cs1.dropWhile Char.isDigit
  match rest with
  | '.' :: r =>
    let fracPart := r.takeWhile Char.isDigit
    if intPart.isEmpty && fracPart.isEmpty then none
    else
      some (sign * ((digitsToNat intPart : ℚ)
        + (digitsToNat fracPart : ℚ) / (10 : ℚ) ^ fracPart.length))
  | _ => if intPart.isEmpty then none else some (sign * (digitsToNat intPart : ℚ))

/-- Model of JS `parseInt(s, 10)`: skip leading whitespace, read an
optional sign and then a decimal digit prefix; trailing garbage is
ignored; no digit means NaN (`none`). -/
def jsParseIntChars (cs0 : List Char) : Option ℤ :=
  let cs := cs0.dropWhile isSpaceChar
  let signed : ℤ × List Char :=
    match cs with
    | '-' :: r => (-1, r)
    | '+' :: r => (1, r)
    | _ => (1, cs)
  let ds := signed.2.takeWhile Char.isDigit
  if ds.isEmpty then none else some (signed.1 * (digitsToNat ds : ℤ))

/-- `parseTimeInput` of AudioPlayer.tsx: trim the input, reject the empty
string, split on `":"`; one component is seconds via `parseFloat`, two are
minutes (`parseInt`) and seconds, three are hours, minutes and seconds;
the seconds field gets its first comma replaced by a dot; any NaN
component rejects; the total is clamped below at 0 by `Math.max`. -/
def parseTimeInput (input : String) : Option ℚ :=
  let s := jsTrim input.data
  if s.isEmpty then none
  else
    match splitColon s with
    | [p0] =>
      match jsParseFloatChars (replaceFirstComma p0) with
      | none => none
      | some sec => some (max 0 sec)
    | [p0, p1] =>
      match jsParseIntChars p0, jsParseFloatChars (replaceFirstComma p1) with
      | some m, some sec => some (max 0 ((m : ℚ) * 60 + sec))
      | _, _ => none
    | [p0, p1, p2] =>
      match jsParseIntChars p0, jsParseIntChars p1,
          jsParseFloatChars (replaceFirstComma p2) with
      | some h, some m, some sec =>
        some (max 0 ((h : ℚ) * 3600 + (m : ℚ) * 60 + sec))
      | _, _, _ => none
    | _ => none

/-! ### Geometry Mapper (Waveform component) -/

/-- `timeToX` of the Waveform component:
`duration > 0 ? (time / duration) * canvasWidth : 0`. -/
def timeToX (dur w t : ℚ) : ℚ := if 0 < dur then t / dur * w else 0

/-- `clientXToTime` of the Waveform component, expressed on the
canvas-local x (`getCanvasX` is already applied by the caller): 0 when the
duration is not positive, otherwise `(x / canvasWidth) * duration` clamped
to `[0, duration]`. -/
def xToTime (dur w x : ℚ) : ℚ :=
  if dur ≤ 0 then 0 else max 0 (min dur (x / w * dur))

/-! ### Cut-point interaction (Waveform component) -/

/-- The outcome of a canvas click: one of the two parent callbacks
`onRemoveCutPoint` / `onAddCutPoint`. -/
inductive ClickAction where
  | removePoint (id : String)
  | addPoint (time : ℚ)
  deriving DecidableEq

/-- The hit test of `handleCanvasClick`: the marker pixel of a cut point
lies strictly within the 10 px click threshold of the click x. -/
def hitPred (dur w x : ℚ) (p : CutPoint) : Bool :=
  decide (|timeToX dur w p.time - x| < 10)

/-- `handleCanvasClick` of the Waveform component with a loaded buffer,
expressed on the canvas-local click x: `cutPoints.find(...)` scans the
array for the first point within the threshold; a hit is removed by id,
otherwise a point is added at the click time. -/
def handleCanvasClick (dur w : ℚ) (pts : List CutPoint) (x : ℚ) : ClickAction :=
  match pts.find? (hitPred dur w x) with
  | some p => ClickAction.removePoint p.id
  | none => ClickAction.addPoint (xToTime dur w x)

/-! ### Waveform Downsampler (the `draw` routine) -/

/-- `Math.ceil(data.length / width)` of the draw routine. -/
def jsStep (n w : ℕ) : ℕ := (⌈(n : ℚ) / (w : ℚ)⌉).toNat

/-- The inner sampling loop of the draw routine for one pixel column:
at most `k` further iterations, current sample index `base + j`, breaking
at the end of the data, updating the running min and max. -/
def scanColumn (data : List ℚ) (base : ℕ) : ℕ → ℕ → ℚ → ℚ → ℚ × ℚ
  | 0, _, mn, mx => (mn, mx)
  | k + 1, j, mn, mx =>
    let idx := base + j
    if data.length ≤ idx then (mn, mx)
    else
      scanColumn data base k (j + 1)
        (min mn (data.getD idx 0)) (max mx (data.getD idx 0))

/-- One pixel column of the draw routine: scan up to `step` samples
starting at `i * step`, with the min initialised to `1.0` and the max to
`-1.0`. -/
def columnPair (data : List ℚ) (step i : ℕ) : ℚ × ℚ :=
  scanColumn data (i * step) step 0 1 (-1)

/-- The amplitude-to-row mapping of the draw routine:
`y = (1 + a) * amp` with `amp = height / 2`. -/
def yMap (height a : ℚ) : ℚ := (1 + a) * (height / 2)

/-- The vertical segment the draw routine strokes for pixel column `i`:
the rows `y1` (from the column min) and `y2` (from the column max). -/
def columnSegment (data : List ℚ) (w : ℕ) (height : ℚ) (i : ℕ) : ℚ × ℚ :=
  let step := jsStep data.length w
  let p := columnPair data step i
  (yMap height p.1, yMap height p.2)

/-- The sample window the spec claims pixel column `i` scans: the entries
of the data at indices `[i*step, min((i+1)*step, N))`.  Stated from the
spec's words, to be compared against the source loop `columnPair`. -/
def specColumnWindow (data : List ℚ) (step i : ℕ) : List ℚ :=
  (List.range' (i * step) (min ((i + 1) * step) data.length - i * step)).map
    (fun idx => data.getD idx 0)

/-! ### Cut-point list presentation (Waveform component) -/

/-- Insertion into a list already ascending by time — helper for the model
of `Array.prototype.sort` with comparator `(a, b) => a.time - b.time`. -/
def sortInsert (p : CutPoint) : List CutPoint → List CutPoint
  | [] => [p]
  | q :: qs => if q.time ≤ p.time then q :: sortInsert p qs else p :: q :: qs

/-- Model of `cutPoints.sort((a, b) => a.time - b.time)`:
`Array.prototype.sort` reorders the array ascending by time in place and
returns the very same array object. -/
def jsSortByTime : List CutPoint → List CutPoint
  | [] => []
  | p :: ps => sortInsert p (jsSortByTime ps)

/-- The cut-point list rendering step of the Waveform component:
`cutPoints.sort(...)` reorders the prop array in place and the returned
(same) array is what is mapped to rows.  Result: the store after the
render pass, paired with the presented sequence. -/
def renderCutList (pts : List CutPoint) : List CutPoint × List CutPoint :=
  let sorted := jsSortByTime pts
  (sorted, sorted)

/-! ### Theorems -/

/-- C9: for positive duration and canvas width and every `t` in
`[0, duration]`, mapping the time to a pixel x with `timeToX` and back
with `xToTime` returns exactly `t` in the rational model — in particular
within one pixel's time-resolution `duration / canvasWidth`. -/
theorem xToTime_timeToX_roundtrip (dur w t : ℚ) (hd : 0 < dur) (hw : 0 < w)
    (h0 : 0 ≤ t) (h1 : t ≤ dur) :
    xToTime dur w (timeToX dur w t) = t ∧
      |xToTime dur w (timeToX dur w t) - t| ≤ dur / w := by
  have hx : timeToX dur w t = t / dur * w := by simp [timeToX, hd]
  have hv : t / dur * w / w * dur = t := by
    field_simp
    ring
  have hmain : xToTime dur w (timeToX dur w t) = t := by
    rw [hx, xToTime, if_neg (not_le.mpr hd), hv, min_eq_right h1, max_eq_right h0]
  refine ⟨hmain, ?_⟩
  rw [hmain, sub_self, abs_zero]
  positivity

/-- Closed witness for the round-trip theorem at duration 100, canvas
width 1000 and t = 50. -/
theorem xToTime_timeToX_roundtrip_witness :
    xToTime 100 1000 (timeToX 100 1000 50) = 50 ∧
      |xToTime 100 1000 (timeToX 100 1000 50) - 50| ≤ 100 / 1000 :=
  xToTime_timeToX_roundtrip 100 1000 50 (by norm_num) (by norm_num)
    (by norm_num) (by norm_num)

/-- C1 (code bug): seeking to 10 while Playing at rate 1, five seconds of
hardware clock after the last `play`, leaves the position at 15, not at
the clamped target 10: the `pause` that `seekTo` performs re-adds the
elapsed scaled time on top of the just-stored seek target, and playback
restarts from 15. -/
theorem seekTo_while_playing_overshoots :
    (seekTo 5 100 10
        ⟨true, 0, 0, 5, 1, false, true, false⟩).currentTime = 15 ∧
      (seekTo 5 100 10
        ⟨true, 0, 0, 5, 1, false, true, false⟩).pauseTime = 15 ∧
      (15 : ℚ) ≠ 10 := by
  refine ⟨?_, ?_, by norm_num⟩ <;>
    norm_num [seekTo, pause, play, min_def, max_def]

/-- C5 (counterexample): while Playing with stored position 0, two
seconds of elapsed clock at rate 1 (current position 2), `skip 5` lands
at 7 but `seekTo (2 + 5)` — seek of the current position plus the offset,
as the claim reads — lands at 9, so the two operations are not
equivalent. -/
theorem skip_not_seek_of_current_position :
    (skip 2 100 5 ⟨true, 0, 0, 2, 1, false, true, false⟩).currentTime = 7 ∧
      (seekTo 2 100 (2 + 5)
        ⟨true, 0, 0, 2, 1, false, true, false⟩).currentTime = 9 ∧
      skip 2 100 5 ⟨true, 0, 0, 2, 1, false, true, false⟩ ≠
        seekTo 2 100 (2 + 5) ⟨true, 0, 0, 2, 1, false, true, false⟩ := by
  have h1 : (skip 2 100 5
      ⟨true, 0, 0, 2, 1, false, true, false⟩).currentTime = 7 := by
    norm_num [skip, pause, play, min_def, max_def]
  have h2 : (seekTo 2 100 (2 + 5)
      ⟨true, 0, 0, 2, 1, false, true, false⟩).currentTime = 9 := by
    norm_num [seekTo, pause, play, min_def, max_def]
  refine ⟨h1, h2, fun h => ?_⟩
  rw [h, h2] at h1
  norm_num at h1

/-- C5 (amended): at every state, clock reading, duration and offset,
`skip Δ` coincides with `seekTo (storedPosition + Δ)` — seek of the
*stored* pause position plus the offset.  The stored position equals the
current position only while not Playing; while Playing the elapsed scaled
time is not part of the skip base. -/
theorem skip_eq_seek_stored (now dur d : ℚ) (s : PlayerState) :
    skip now dur d s = seekTo now dur (s.pauseTime + d) s := rfl

/-- C4 (counterexample): a periodic callback that observes position
`duration - 0.005` resets the stored and displayed position to 0 and
leaves Playing, but the controller does not stop the output node on this
path: the node's stop marker is still unset afterwards. -/
theorem natural_end_does_not_stop_node :
    (updateTime (9995 / 1000) 10
        ⟨true, 0, 0, 0, 1, false, true, false⟩).isPlaying = false ∧
      (updateTime (9995 / 1000) 10
        ⟨true, 0, 0, 0, 1, false, true, false⟩).pauseTime = 0 ∧
      (updateTime (9995 / 1000) 10
        ⟨true, 0, 0, 0, 1, false, true, false⟩).currentTime = 0 ∧
      (updateTime (9995 / 1000) 10
        ⟨true, 0, 0, 0, 1, false, true, false⟩).sourceStopped = false ∧
      (updateTime (9995 / 1000) 10
        ⟨true, 0, 0, 0, 1, false, true, false⟩).hasSource = true := by
  refine ⟨?_, ?_, ?_, ?_, ?_⟩ <;>
    norm_num [updateTime, min_def]

/-- C4 (amended): while Playing, whenever the recomputed clamped position
reaches `duration - 0.01`, the periodic callback autonomously resets the
stored position to 0, the displayed position to 0 and the phase to
not-playing, leaving every other field — in particular the stop state of
the output node — untouched. -/
theorem natural_end_resets_to_idle (now dur : ℚ) (s : PlayerState)
    (hp : s.isPlaying = true)
    (hend : dur - 1 / 100 ≤ min (s.pauseTime + (now - s.startTime) * s.rate) dur) :
    updateTime now dur s =
      { s with currentTime := 0, isPlaying := false, pauseTime := 0 } := by
  rw [updateTime, if_pos hp, if_pos hend]

/-- Closed witness for the natural-end reset at a concrete Playing state
observing position 9.995 of a 10-second track. -/
theorem natural_end_resets_to_idle_witness :
    updateTime (9995 / 1000) 10 ⟨true, 0, 0, 0, 1, false, true, false⟩ =
      ⟨false, 0, 0, 0, 1, false, true, false⟩ :=
  natural_end_resets_to_idle (9995 / 1000) 10
    ⟨true, 0, 0, 0, 1, false, true, false⟩ rfl (by norm_num)

/-- C6: an `ended` notification finding the intentional-stop flag set
only consumes the flag (no reset of position or phase); with the flag
unset it performs the natural-end reset to position 0 / not playing; and
a duplicate `ended` signal arriving when the state is already idle with
position 0 leaves the state completely unchanged. -/
theorem ended_flag_dispatch (s : PlayerState) :
    (s.intentionalStop = true →
        handleEnded s = { s with intentionalStop := false }) ∧
      (s.intentionalStop = false →
        handleEnded s =
          { s with pauseTime := 0, currentTime := 0, isPlaying := false }) ∧
      (s.intentionalStop = false → s.isPlaying = false → s.pauseTime = 0 →
        s.currentTime = 0 → handleEnded s = s) := by
  refine ⟨fun h => ?_, fun h => ?_, fun h hp hpt hct => ?_⟩
  · rw [handleEnded, if_pos h]
  · rw [handleEnded, if_neg (by simp [h])]
  · rw [handleEnded, if_neg (by simp [h])]
    cases s
    simp_all

/-- Closed witness for the `ended` dispatch: a duplicate signal on an
already idle state with position 0 is a no-op. -/
theorem ended_flag_dispatch_witness :
    handleEnded ⟨false, 0, 0, 0, 1, false, true, false⟩ =
      ⟨false, 0, 0, 0, 1, false, true, false⟩ :=
  (ended_flag_dispatch ⟨false, 0, 0, 0, 1, false, true, false⟩).2.2
    rfl rfl rfl rfl

/-- C2: the periodic callback recomputes the position from the hardware
clock delta alone — the result does not depend on the previously displayed
value, so no per-tick increments accumulate — and in the scenario
play at 0, tick at 2, pause at 2, play again after an arbitrary
nonnegative pause gap and tick one second later, the reported positions
are exactly 2, then a stored 2, then exactly 3: the pause boundary
introduces no drift. -/
theorem position_recompute_no_drift (gap : ℚ) (hgap : 0 ≤ gap) :
    (updateTime 2 10 (play 0 initState)).currentTime = 2 ∧
      (pause 2 10 (updateTime 2 10 (play 0 initState))).pauseTime = 2 ∧
      (updateTime (3 + gap) 10
          (play (2 + gap)
            (pause 2 10 (updateTime 2 10 (play 0 initState))))).currentTime = 3 ∧
      ∀ (s : PlayerState) (now d c : ℚ), s.isPlaying = true →
        updateTime now d { s with currentTime := c } = updateTime now d s := by
  refine ⟨by norm_num [updateTime, play, initState, min_def],
    by norm_num [updateTime, play, pause, initState, min_def], ?_, ?_⟩
  · have h1 : (3 + gap) - (2 + gap) = 1 := by ring
    simp only [updateTime, play, pause, initState]
    norm_num [h1, min_def]
  · intro s now d c hp
    simp [updateTime, hp]

/-- Closed witness for the no-drift scenario with a pause gap of 5
seconds, the direct-recompute conjunct instantiated at a concrete
Playing state with displayed position 7. -/
theorem position_recompute_no_drift_witness :
    (updateTime 2 10 (play 0 initState)).currentTime = 2 ∧
      (pause 2 10 (updateTime 2 10 (play 0 initState))).pauseTime = 2 ∧
      (updateTime (3 + 5) 10
          (play (2 + 5)
            (pause 2 10 (updateTime 2 10 (play 0 initState))))).currentTime = 3 ∧
      updateTime 3 10 ⟨true, 0, 0, 7, 1, false, true, false⟩ =
        updateTime 3 10 ⟨true, 0, 0, 0, 1, false, true, false⟩ := by
  obtain ⟨h1, h2, h3, h4⟩ := position_recompute_no_drift 5 (by norm_num)
  exact ⟨h1, h2, h3, h4 ⟨true, 0, 0, 0, 1, false, true, false⟩ 3 10 7 rfl⟩

/-- C3 (counterexample): `parse "-1:00"` does not yield invalid — the
negative total −60 is clamped to 0 by `Math.max(0, ·)` and the parse
succeeds with 0. -/
theorem parse_neg_clamped_not_invalid :
    parseTimeInput "-1:00" = some 0 ∧ parseTimeInput "-1:00" ≠ none := by
  have h : parseTimeInput "-1:00" =
      some (max 0 (((-1 : ℤ) : ℚ) * 60 + 1 * ((0 : ℕ) : ℚ))) := rfl
  refine ⟨?_, ?_⟩ <;> rw [h]
  · norm_num [max_def]
  · simp

/-- C3 (amended): `parse "invalid"`, `parse ""` and a component with no
numeric prefix yield invalid, but negative components are not rejected at
parse time: `parse "-1:00"` succeeds with the total clamped to 0, and
every successful parse is nonnegative. -/
theorem parse_malformed_amended :
    parseTimeInput "invalid" = none ∧
      parseTimeInput "" = none ∧
      parseTimeInput "abc:10" = none ∧
      parseTimeInput "-1:00" = some 0 ∧
      ∀ (input : String) (r : ℚ), parseTimeInput input = some r → 0 ≤ r := by
  have h : parseTimeInput "-1:00" =
      some (max 0 (((-1 : ℤ) : ℚ) * 60 + 1 * ((0 : ℕ) : ℚ))) := rfl
  refine ⟨rfl, rfl, rfl, by rw [h]; norm_num [max_def], ?_⟩
  intro input r h
  simp only [parseTimeInput] at h
  split at h
  · exact absurd h (by simp)
  · repeat' split at h
    all_goals first
      | (rw [Option.some_inj] at h; rw [← h]; exact le_max_left _ _)
      | simp at h

/-- Closed witness for the amended parse behaviour: the successful parse
of `"-1:00"` produces the clamped, nonnegative value 0. -/
theorem parse_malformed_amended_witness :
    parseTimeInput "-1:00" = some 0 ∧ (0 : ℚ) ≤ 0 := by
  have h : parseTimeInput "-1:00" = some 0 := by
    rw [show parseTimeInput "-1:00" =
        some (max 0 (((-1 : ℤ) : ℚ) * 60 + 1 * ((0 : ℕ) : ℚ))) from rfl]
    norm_num [max_def]
  exact ⟨h, parse_malformed_amended.2.2.2.2 "-1:00" 0 h⟩

/-- C7: provided the cut-point array is ascending by time — which the
in-place sort performed by every list render pass guarantees at
click time — a canvas click either removes the first cut point in
presentation order whose marker pixel is within the 10 px threshold of
the click, or, when no cut point is within the threshold, adds a new cut
point at the time corresponding to the click pixel. -/
theorem click_dispatch_policy (dur w x : ℚ) (pts : List CutPoint)
    (hs : List.Sorted (fun a b : CutPoint => a.time ≤ b.time) pts) :
    (∃ p, p ∈ pts ∧ hitPred dur w x p = true ∧
        handleCanvasClick dur w pts x = ClickAction.removePoint p.id ∧
        ∀ q ∈ pts, hitPred dur w x q = true → p.time ≤ q.time) ∨
      ((∀ q ∈ pts, hitPred dur w x q = false) ∧
        handleCanvasClick dur w pts x =
          ClickAction.addPoint (xToTime dur w x)) := by
  induction pts with
  | nil =>
    right
    exact ⟨by simp, rfl⟩
  | cons p ps ih =>
    obtain ⟨hle, hs2⟩ := List.sorted_cons.mp hs
    by_cases hp : hitPred dur w x p = true
    · left
      refine ⟨p, List.mem_cons_self p ps, hp, ?_, ?_⟩
      · unfold handleCanvasClick
        rw [List.find?_cons_of_pos ps hp]
      · intro q hq hhq
        rcases List.mem_cons.mp hq with rfl | hq2
        · exact le_refl _
        · exact hle q hq2
    · have hsame : handleCanvasClick dur w (p :: ps) x =
          handleCanvasClick dur w ps x := by
        unfold handleCanvasClick
        rw [List.find?_cons_of_neg ps hp]
      rcases ih hs2 with ⟨q, hq, hhit, heq, hmin⟩ | ⟨hnone, heq⟩
      · left
        refine ⟨q, List.mem_cons_of_mem p hq, hhit, hsame.trans heq, ?_⟩
        intro r hr hhr
        rcases List.mem_cons.mp hr with rfl | hr2
        · exact absurd hhr hp
        · exact hmin r hr2 hhr
      · right
        refine ⟨?_, hsame.trans heq⟩
        intro q hq
        rcases List.mem_cons.mp hq with rfl | hq2
        · exact Bool.eq_false_iff.mpr hp
        · exact hnone q hq2

/-- Closed witness for the click dispatch: on the sorted points a\@30 and
b\@55 of a 100-second track on a 100 px canvas, a click at x = 50 is
within 10 px of b's marker (55 px) and b is removed. -/
theorem click_dispatch_policy_witness :
    (∃ p, p ∈ [(⟨"a", 30⟩ : CutPoint), ⟨"b", 55⟩] ∧
        hitPred 100 100 50 p = true ∧
        handleCanvasClick 100 100 [(⟨"a", 30⟩ : CutPoint), ⟨"b", 55⟩] 50 =
          ClickAction.removePoint p.id ∧
        ∀ q ∈ [(⟨"a", 30⟩ : CutPoint), ⟨"b", 55⟩],
          hitPred 100 100 50 q = true → p.time ≤ q.time) ∨
      ((∀ q ∈ [(⟨"a", 30⟩ : CutPoint), ⟨"b", 55⟩],
          hitPred 100 100 50 q = false) ∧
        handleCanvasClick 100 100 [(⟨"a", 30⟩ : CutPoint), ⟨"b", 55⟩] 50 =
          ClickAction.addPoint (xToTime 100 100 50)) :=
  click_dispatch_policy 100 100 50 [⟨"a", 30⟩, ⟨"b", 55⟩]
    (by norm_num [List.sorted_cons])

/-- Folding the combined (min, max) update over a list is the pair of the
two independent folds. -/
theorem foldl_minmax_split (l : List ℚ) (mn mx : ℚ) :
    l.foldl (fun acc a => (min acc.1 a, max acc.2 a)) (mn, mx) =
      (l.foldl min mn, l.foldl max mx) := by
  induction l generalizing mn mx with
  | nil => rfl
  | cons a l ih => simpa using ih (min mn a) (max mx a)

/-- On a strictly increasing index list, stopping at the end of the data
is truncation: taking while `idx < N` from `range' s k` is
`range' s (min k (N - s))`. -/
theorem takeWhile_lt_range' (N : ℕ) :
    ∀ (k s : ℕ),
      (List.range' s k).takeWhile (fun idx => decide (idx < N)) =
        List.range' s (min k (N - s)) := by
  intro k
  induction k with
  | zero => intro s; simp
  | succ k ih =>
    intro s
    rw [List.range'_succ]
    by_cases h : s < N
    · rw [List.takeWhile_cons, if_pos (by simpa using h), ih (s + 1)]
      have hmin : min (k + 1) (N - s) = min k (N - (s + 1)) + 1 := by omega
      rw [hmin, List.range'_succ]
    · rw [List.takeWhile_cons, if_neg (by simpa using h)]
      have hmin : min (k + 1) (N - s) = 0 := by omega
      rw [hmin]
      rfl

/-- The inner sampling loop equals a fold over the indices it visits:
from `base + j`, at most `k` of them, stopping at the end of the data. -/
theorem scanColumn_eq_fold (data : List ℚ) (base : ℕ) :
    ∀ (k j : ℕ) (mn mx : ℚ),
      scanColumn data base k j mn mx =
        (((List.range' (base + j) k).takeWhile
            (fun idx => decide (idx < data.length))).map
              (fun idx => data.getD idx 0)).foldl
          (fun acc a => (min acc.1 a, max acc.2 a)) (mn, mx) := by
  intro k
  induction k with
  | zero => intro j mn mx; simp [scanColumn]
  | succ k ih =>
    intro j mn mx
    rw [scanColumn, List.range'_succ, List.takeWhile_cons]
    by_cases h : data.length ≤ base + j
    · rw [if_pos h, if_neg (by simpa using h)]
      rfl
    · rw [if_neg h, if_pos (by simpa using not_le.mp h)]
      rw [List.map_cons, List.foldl_cons]
      have hbase : base + j + 1 = base + (j + 1) := by omega
      rw [hbase]
      exact ih (j + 1) (min mn (data.getD (base + j) 0))
        (max mx (data.getD (base + j) 0))

/-- `Math.ceil(1 / 2) = 1`: the step for a single sample and width 2. -/
theorem jsStep_one_two : jsStep 1 2 = 1 := by
  have hc : ⌈(1 : ℚ) / 2⌉ = 1 := by
    rw [Int.ceil_eq_iff]
    norm_num
  rw [jsStep]
  norm_num [hc]

/-- C8 (counterexample): with the single-sample data `[0]` and target
width 2, tail column 1 scans no sample and keeps the initial pair
`(1, -1)`; at height 128 its drawn segment runs from row 128 to row 0 —
the full height — and not a flat line at the vertical center 64. -/
theorem empty_column_not_center_line :
    columnPair [0] (jsStep 1 2) 1 = (1, -1) ∧
      columnSegment [0] 2 128 1 = (128, 0) ∧
      columnSegment [0] 2 128 1 ≠ (64, 64) := by
  have hstep : jsStep 1 2 = 1 := jsStep_one_two
  have hpair1 : columnPair [(0 : ℚ)] 1 1 = (1, -1) := rfl
  have hpair : columnPair [0] (jsStep 1 2) 1 = (1, -1) := by
    rw [hstep]
    exact hpair1
  have hseg : columnSegment [0] 2 128 1 = (128, 0) := by
    show (yMap 128 (columnPair [0] (jsStep (List.length [(0 : ℚ)]) 2) 1).1,
        yMap 128 (columnPair [0] (jsStep (List.length [(0 : ℚ)]) 2) 1).2) =
      (128, 0)
    rw [show List.length [(0 : ℚ)] = 1 from rfl, hstep, hpair1]
    simp only [yMap, Prod.mk.injEq]
    norm_num
  refine ⟨hpair, hseg, ?_⟩
  rw [hseg]
  intro hcontra
  have hfst := congrArg Prod.fst hcontra
  norm_num at hfst

/-- C8 (amended): the draw routine uses `step = ceil(N / W)` and, for
each pixel column `i` in `[0, W)`, records the minimum and maximum of
the samples at indices `[i*step, min((i+1)*step, N))`, folded from the
initial values `+1.0` for the min and `-1.0` for the max; each amplitude
`a` is mapped to the pixel row `(1 + a) * height/2`.  A tail column
scanning no sample therefore keeps the inverted pair `(1, -1)`, whose
drawn segment spans the full height (rows `height` and `0`), not a flat
line at the vertical center. -/
theorem downsample_column_spec (data : List ℚ) (w i : ℕ) (height : ℚ)
    (hi : i < w) :
    columnPair data (jsStep data.length w) i =
      ((specColumnWindow data (jsStep data.length w) i).foldl min 1,
        (specColumnWindow data (jsStep data.length w) i).foldl max (-1)) ∧
      (jsStep data.length w : ℤ) = ⌈(data.length : ℚ) / (w : ℚ)⌉ ∧
      (∀ a : ℚ, yMap height a = (1 + a) * (height / 2)) ∧
      (data.length ≤ i * jsStep data.length w →
        columnPair data (jsStep data.length w) i = (1, -1) ∧
        columnSegment data w height i = (height, 0)) := by
  have hceil : (jsStep data.length w : ℤ) = ⌈(data.length : ℚ) / (w : ℚ)⌉ := by
    rw [jsStep]
    exact Int.toNat_of_nonneg (Int.ceil_nonneg (by positivity))
  have hwin : ∀ step : ℕ, columnPair data step i =
      ((specColumnWindow data step i).foldl min 1,
        (specColumnWindow data step i).foldl max (-1)) := by
    intro step
    simp only [columnPair, specColumnWindow]
    rw [scanColumn_eq_fold data (i * step) step 0 1 (-1), Nat.add_zero,
      takeWhile_lt_range' data.length step (i * step)]
    have hcount : min step (data.length - i * step) =
        min ((i + 1) * step) data.length - i * step := by
      have hexp : (i + 1) * step = i * step + step := by ring
      rw [hexp]
      generalize i * step = a
      omega
    rw [hcount, foldl_minmax_split]
  refine ⟨hwin _, hceil, fun a => rfl, fun hempty => ?_⟩
  have hcount0 : min ((i + 1) * jsStep data.length w) data.length -
      i * jsStep data.length w = 0 := by
    have hexp : (i + 1) * jsStep data.length w =
        i * jsStep data.length w + jsStep data.length w := by ring
    rw [hexp]
    revert hempty
    generalize i * jsStep data.length w = a
    intro hempty
    omega
  have hwin0 : specColumnWindow data (jsStep data.length w) i = [] := by
    rw [specColumnWindow, hcount0]
    rfl
  have hpair : columnPair data (jsStep data.length w) i = (1, -1) := by
    rw [hwin _, hwin0]
    rfl
  refine ⟨hpair, ?_⟩
  show (yMap height (columnPair data (jsStep data.length w) i).1,
      yMap height (columnPair data (jsStep data.length w) i).2) = (height, 0)
  rw [hpair]
  simp only [yMap, Prod.mk.injEq]
  constructor <;> ring

/-- Closed witness for the downsampler column characterisation on the
single-sample data `[0]`, width 2, height 128, tail column 1, with the
empty-tail case discharged as well. -/
theorem downsample_column_spec_witness :
    columnPair [(0 : ℚ)] (jsStep (List.length [(0 : ℚ)]) 2) 1 =
      ((specColumnWindow [(0 : ℚ)] (jsStep (List.length [(0 : ℚ)]) 2) 1).foldl
          min 1,
        (specColumnWindow [(0 : ℚ)] (jsStep (List.length [(0 : ℚ)]) 2) 1).foldl
          max (-1)) ∧
      (jsStep (List.length [(0 : ℚ)]) 2 : ℤ) =
        ⌈(List.length [(0 : ℚ)] : ℚ) / ((2 : ℕ) : ℚ)⌉ ∧
      yMap 128 1 = (1 + 1) * (128 / 2) ∧
      columnPair [(0 : ℚ)] (jsStep (List.length [(0 : ℚ)]) 2) 1 = (1, -1) ∧
      columnSegment [(0 : ℚ)] 2 128 1 = (128, 0) := by
  obtain ⟨h1, h2, h3, h4⟩ := downsample_column_spec [(0 : ℚ)] 2 1 128
    (by norm_num)
  have hle : List.length [(0 : ℚ)] ≤ 1 * jsStep (List.length [(0 : ℚ)]) 2 := by
    norm_num [jsStep_one_two]
  exact ⟨h1, h2, h3 1, (h4 hle).1, (h4 hle).2⟩

/-- C10 (code bug): one render pass of the cut-point list over the store
holding a\@5 then b\@3 reorders the canonical array itself to b\@3, a\@5 —
the in-place sort mutates the store as a side effect of rendering — while
the presented sequence is still a permutation of the store's cut points
with every id intact. -/
theorem render_sort_mutates_store :
    (renderCutList [(⟨"a", 5⟩ : CutPoint), ⟨"b", 3⟩]).1 =
        [(⟨"b", 3⟩ : CutPoint), ⟨"a", 5⟩] ∧
      (renderCutList [(⟨"a", 5⟩ : CutPoint), ⟨"b", 3⟩]).1 ≠
        [(⟨"a", 5⟩ : CutPoint), ⟨"b", 3⟩] ∧
      List.Perm (renderCutList [(⟨"a", 5⟩ : CutPoint), ⟨"b", 3⟩]).2
        [(⟨"a", 5⟩ : CutPoint), ⟨"b", 3⟩] := by
  have hsort : jsSortByTime [(⟨"a", 5⟩ : CutPoint), ⟨"b", 3⟩] =
      [(⟨"b", 3⟩ : CutPoint), ⟨"a", 5⟩] := by
    norm_num [jsSortByTime, sortInsert]
  have h1 : (renderCutList [(⟨"a", 5⟩ : CutPoint), ⟨"b", 3⟩]).1 =
      [(⟨"b", 3⟩ : CutPoint), ⟨"a", 5⟩] := hsort
  have h2 : (renderCutList [(⟨"a", 5⟩ : CutPoint), ⟨"b", 3⟩]).2 =
      [(⟨"b", 3⟩ : CutPoint), ⟨"a", 5⟩] := hsort
  refine ⟨h1, ?_, ?_⟩
  · rw [h1]
    intro hcontra
    have := List.head_eq_of_cons_eq hcontra
    have hid := congrArg CutPoint.id this
    simp at hid
  · rw [h2]
    exact List.Perm.swap _ _ _

end AudioKut
